import Mathlib

/-!
Verification of the weave-project pull-request ingestion pipeline.

This file gives a shallow embedding of the pipeline's core logic and proves
the specified properties about it:

* the origin client and rate-limit classification
  (src/lib/github/client.ts, src/lib/github/ingestMergedPullRequests.ts);
* the raw-response store with its 60-minute content dedup window
  (src/lib/db/sqlite.ts, insertRawResponse);
* the listing-pagination loop of the discovery phase
  (src/lib/github/ingestMergedPullRequests.ts, syncMergedPullRequestsRaw);
* the detail-skip check for already stored merged details (same file);
* fact derivation with title classification and latest-wins dedup
  (src/lib/github/impact/refreshFacts.ts);
* author-statistics aggregation with bot exclusion, ordering and top-5 cutoff
  (src/lib/github/impact/computeAuthorStats.ts and the read-path fallback).

Time stamps handled by SQLite as ISO-8601 text are modeled as strings ordered
byte-wise (SQLite BINARY collation); times handled as epoch milliseconds or
seconds in the code are modeled as integers.
-/

namespace Weave

/-! ## Origin client

Models `githubFetchJson` and `GithubHttpError` from src/lib/github/client.ts
and the rate-limit classification `rethrowIfRateLimit` / `extractRateLimit`
from src/lib/github/ingestMergedPullRequests.ts. -/

/-- An origin API HTTP response, reduced to the parts the code reads:
status, the two rate-limit headers, and the body text. -/
structure HttpResponse where
  status : Nat
  rlRemaining : Option String
  rlReset : Option String
  bodyText : String
deriving DecidableEq, Repr

/-- Fetch-spec `response.ok`: status in the 200-299 range. -/
def responseOk (r : HttpResponse) : Bool :=
  decide (200 ≤ r.status) && decide (r.status ≤ 299)

/-- The `RateLimitInfo` record of ingestMergedPullRequests.ts. -/
structure RateLimitInfo where
  remaining : Option String
  reset : Option String
deriving DecidableEq, Repr

/-- Embeds `extractRateLimit`: null when both headers are absent, otherwise
the pair of (possibly null) header values. -/
def extractRateLimit (remaining reset : Option String) : Option RateLimitInfo :=
  if remaining = none ∧ reset = none then none
  else some { remaining := remaining, reset := reset }

/-- Failures thrown by `githubFetchJson`: a `GithubHttpError` carrying status,
rate-limit headers and body text, or any other error. -/
inductive FetchError where
  | http (status : Nat) (rlRemaining rlReset : Option String) (bodyText : String)
  | other (message : String)
deriving DecidableEq, Repr

/-- Embeds `githubFetchJson` (src/lib/github/client.ts lines 40-71): a non-ok
response throws a `GithubHttpError` with the status, headers and body; an ok
response yields status, parsed data and headers. -/
def githubFetchJson {α : Type} (resp : HttpResponse) (data : α) :
    Except FetchError (Nat × α × HttpResponse) :=
  if responseOk resp then Except.ok (resp.status, data, resp)
  else Except.error (FetchError.http resp.status resp.rlRemaining resp.rlReset resp.bodyText)

/-- Failures after passing through `rethrowIfRateLimit`: a
`RateLimitExceededError`, the original `GithubHttpError`, or another error. -/
inductive SyncFetchError where
  | rateLimit (status : Nat) (rateLimit : Option RateLimitInfo)
  | http (status : Nat) (rlRemaining rlReset : Option String) (bodyText : String)
  | other (message : String)
deriving DecidableEq, Repr

/-- Embeds `rethrowIfRateLimit` (ingestMergedPullRequests.ts lines 80-90): a
`GithubHttpError` with status 403 is re-raised as `RateLimitExceededError`
carrying the extracted rate-limit info; any other error is re-raised as is. -/
def rethrowIfRateLimit : FetchError → SyncFetchError
  | FetchError.http status rem reset body =>
    if status = 403 then SyncFetchError.rateLimit status (extractRateLimit rem reset)
    else SyncFetchError.http status rem reset body
  | FetchError.other msg => SyncFetchError.other msg

/-- Whether a re-raised failure is of the distinct rate-limit kind. -/
def isRateLimitError : SyncFetchError → Bool
  | SyncFetchError.rateLimit _ _ => true
  | _ => false

/-- Status carried by a fetch failure, when it is an HTTP failure. -/
def fetchErrorStatus : FetchError → Option Nat
  | FetchError.http status _ _ _ => some status
  | FetchError.other _ => none

/-! ## String helpers

SQLite compares ISO-8601 timestamps stored as text byte-wise; `strLe` models
that order on strings.  `lowerChars` models JavaScript `toLowerCase` /
SQLite `lower` via per-character lowercasing. -/

/-- Byte-wise (codepoint lexicographic) string order, as SQLite's BINARY
collation compares the stored ISO timestamps. -/
def strLeChars : List Char → List Char → Bool
  | [], _ => true
  | _ :: _, [] => false
  | a :: as, b :: bs => if a = b then strLeChars as bs else decide (a < b)

/-- String comparison used wherever the SQL compares timestamp text. -/
def strLe (a b : String) : Bool := strLeChars a.data b.data

/-- Per-character lowercasing, modelling `toLowerCase` and SQL `lower`. -/
def lowerChars (s : String) : List Char := s.data.map Char.toLower

/-- Lowercased string, for the case-insensitive endpoint comparisons. -/
def lowerStr (s : String) : String := String.mk (lowerChars s)

/-- Whitespace trimming on both ends, modelling `String.prototype.trim`. -/
def trimChars (cs : List Char) : List Char :=
  ((cs.dropWhile Char.isWhitespace).reverse.dropWhile Char.isWhitespace).reverse

/-! ## Title classification

Models `deriveKind` (src/lib/github/impact/refreshFacts.ts lines 36-45):
lowercase the title, take the segment before the first colon, trim it, and
test which keyword it starts with. -/

/-- The trimmed, lowercased segment of a title before its first colon
(`title.toLowerCase().split(":")[0].trim()`). -/
def preColonSegment (s : String) : List Char :=
  trimChars ((lowerChars s).takeWhile (fun c => decide (c ≠ ':')))

/-- The score 0.5 as an explicit rational. -/
def halfPoint : Rat := ⟨1, 2, by decide, by decide⟩

/-- Embeds `deriveKind`: keyword buckets tested by starts-with on the trimmed
pre-colon segment, with scores feat 3, fix 2, chore 1, revert 0.5, other 0.5. -/
def deriveKind (title : String) : String × Rat :=
  let seg := preColonSegment title
  if "feat".data.isPrefixOf seg then ("feat", 3)
  else if "fix".data.isPrefixOf seg then ("fix", 2)
  else if "chore".data.isPrefixOf seg then ("chore", 1)
  else if "revert".data.isPrefixOf seg then ("revert", halfPoint)
  else ("other", halfPoint)

/-! ## Raw rows as read by fact derivation

A stored raw response as the derivation queries see it: the payload is
reduced to the JSON fields the code extracts, each optional, with a type
mismatch treated as absence exactly as the defensive `typeof` checks do. -/

/-- The JSON payload fields read from a stored GitHub response. -/
structure PrPayload where
  number : Option Int
  mergedAt : Option String
  baseRef : Option String
  htmlUrl : Option String
  title : Option String
  userLogin : Option String
  defaultBranch : Option String
deriving DecidableEq, Repr

/-- One row of the api_raw_responses table as the derivation reads it. -/
structure RawRow where
  id : Nat
  source : String
  endpoint : String
  statusCode : Int
  payload : PrPayload
  fetchedAt : String
deriving DecidableEq, Repr

/-- The PR-detail endpoint pattern `/repos/owner/repo/pulls/` whose
extensions the derivation query matches with LIKE. -/
def prDetailEndpointStart (owner repo : String) : String :=
  "/repos/" ++ owner ++ "/" ++ repo ++ "/pulls/"

/-- The WHERE clause of the pr_rows CTE (refreshFacts.ts lines 126-140):
source github, endpoint LIKE the detail pattern case-insensitively,
status 200, merged_at present and at least the window start. -/
def isPrDetailRow (owner repo sinceIso : String) (r : RawRow) : Bool :=
  decide (r.source = "github") &&
  (lowerStr (prDetailEndpointStart owner repo)).data.isPrefixOf (lowerStr r.endpoint).data &&
  decide (r.statusCode = 200) &&
  (match r.payload.mergedAt with
   | some m => strLe sinceIso m
   | none => false)

/-- The pr_rows CTE: stored rows passing `isPrDetailRow`. -/
def prRows (store : List RawRow) (owner repo sinceIso : String) : List RawRow :=
  store.filter (isPrDetailRow owner repo sinceIso)

/-- Maximum of a list of identifiers, none when empty (SQL MAX). -/
def maxIdOf : List Nat → Option Nat
  | [] => none
  | n :: ns =>
    match maxIdOf ns with
    | none => some n
    | some m => some (max n m)

/-- Identifiers of the rows in one pr_number group. -/
def groupIds (rows : List RawRow) (k : Option Int) : List Nat :=
  (rows.filter (fun r => decide (r.payload.number = k))).map (fun r => r.id)

/-- The latest CTE's MAX(source_row_id) for one pr_number group. -/
def groupMaxId (rows : List RawRow) (k : Option Int) : Option Nat :=
  maxIdOf (groupIds rows k)

/-- The join of pr_rows with the latest CTE on source_row_id: a row survives
exactly when its identifier is the maximum of some pr_number group. -/
def latestRows (rows : List RawRow) : List RawRow :=
  rows.filter (fun r => rows.any (fun s => decide (groupMaxId rows s.payload.number = some r.id)))

/-- The picked CTE: latest rows whose base.ref equals the default branch. -/
def pickedRows (rows : List RawRow) (defaultBranch : String) : List RawRow :=
  (latestRows rows).filter (fun r => decide (r.payload.baseRef = some defaultBranch))

/-- One row of the pr_facts table. -/
structure FactRow where
  owner : String
  repo : String
  pr_url : String
  merged_at : String
  title : String
  author : String
  author_url : String
  kind : String
  points : Rat
  source_row_id : Nat
  fetched_at : String
deriving DecidableEq, Repr

/-- Builds the fact for one picked row (refreshFacts.ts lines 181-210):
extract html_url, merged_at, title and user.login, skip the row when any is
missing or falsy, classify the title and synthesize the author URL. -/
def factOfRow (owner repo : String) (r : RawRow) : Option FactRow :=
  match r.payload.htmlUrl, r.payload.mergedAt, r.payload.title, r.payload.userLogin with
  | some prUrl, some mergedAt, some title, some author =>
    if prUrl = "" ∨ mergedAt = "" ∨ title = "" ∨ author = "" then none
    else
      some { owner := owner, repo := repo, pr_url := prUrl, merged_at := mergedAt,
             title := title, author := author,
             author_url := "https://github.com/" ++ author,
             kind := (deriveKind title).1, points := (deriveKind title).2,
             source_row_id := r.id, fetched_at := r.fetchedAt }
  | _, _, _, _ => none

/-- The list of facts one derivation run produces from the stored rows. -/
def deriveFactsList (store : List RawRow) (owner repo sinceIso defaultBranch : String) :
    List FactRow :=
  (pickedRows (prRows store owner repo sinceIso) defaultBranch).filterMap (factOfRow owner repo)

/-- The unique key of the pr_facts upsert: (owner, repo, pr_url). -/
def factKey (f : FactRow) : String × String × String := (f.owner, f.repo, f.pr_url)

/-- One upsert into the facts table: on conflict with the key, every derived
field is overwritten (the ON CONFLICT DO UPDATE of refreshFacts.ts
lines 162-177); otherwise a new row is inserted. -/
def upsertFact : List FactRow → FactRow → List FactRow
  | [], f => [f]
  | r :: rs, f => if factKey r = factKey f then f :: rs else r :: upsertFact rs f

/-- Running all the upserts of one derivation batch, in order. -/
def applyFacts (table : List FactRow) (fs : List FactRow) : List FactRow :=
  fs.foldl upsertFact table

/-- The keys of the facts table, in row order. -/
def factKeys (table : List FactRow) : List (String × String × String) :=
  table.map factKey

/-- The row stored in the facts table under one key. -/
def lookupFact (k : String × String × String) (table : List FactRow) : Option FactRow :=
  table.find? (fun r => decide (factKey r = k))

/-- The last fact of a derivation batch carrying one key: the value the
upserts leave under that key. -/
def lastFactFor (k : String × String × String) : List FactRow → Option FactRow
  | [] => none
  | f :: fs =>
    match lastFactFor k fs with
    | some g => some g
    | none => if factKey f = k then some f else none

/-- Whether a stored row is the repository metadata row, matched
case-insensitively on the endpoint (refreshFacts.ts lines 63-72). -/
def isRepoMetadataRow (owner repo : String) (r : RawRow) : Bool :=
  decide (r.source = "github") &&
  decide (lowerStr r.endpoint = lowerStr ("/repos/" ++ owner ++ "/" ++ repo))

/-- The row with the greatest identifier (SQL ORDER BY id DESC LIMIT 1). -/
def maxRowById : List RawRow → Option RawRow
  | [] => none
  | r :: rs =>
    match maxRowById rs with
    | none => some r
    | some m => if m.id ≤ r.id then some r else some m

/-- The default branch taken from the latest stored metadata row's payload,
none when no stored row yields it (in the code that triggers an on-demand
origin fetch, which is outside the fixed-store setting modelled here). -/
def lookupDefaultBranch (store : List RawRow) (owner repo : String) : Option String :=
  match maxRowById (store.filter (isRepoMetadataRow owner repo)) with
  | some r => r.payload.defaultBranch
  | none => none

/-- The effect of `refreshPrFactsForRepo` on the facts table for a fixed raw
store: resolve the default branch from the store, derive the facts of the
window and upsert each in order. -/
def refreshPrFactsForRepo (store : List RawRow) (owner repo sinceIso : String)
    (facts : List FactRow) : Option (List FactRow) :=
  match lookupDefaultBranch store owner repo with
  | some defaultBranch =>
    some (applyFacts facts (deriveFactsList store owner repo sinceIso defaultBranch))
  | none => none

/-! ## Detail-skip check of the discovery phase

Models the already-present check of syncMergedPullRequestsRaw
(ingestMergedPullRequests.ts lines 345-363). -/

/-- The PR-detail endpoint for one pull number. -/
def detailEndpoint (owner repo : String) (pullNumber : Int) : String :=
  "/repos/" ++ owner ++ "/" ++ repo ++ "/pulls/" ++ toString pullNumber

/-- The WHERE clause of the skip query: source github, exact endpoint,
status 200. -/
def isStoredDetailSuccess (endpoint : String) (r : RawRow) : Bool :=
  decide (r.source = "github") && decide (r.endpoint = endpoint) &&
  decide (r.statusCode = 200)

/-- The single row the skip query returns: the matching row with the
greatest identifier. -/
def latestDetailRow (store : List RawRow) (endpoint : String) : Option RawRow :=
  maxRowById (store.filter (isStoredDetailSuccess endpoint))

/-- The skip decision: the latest matching row exists and its merged_at is a
truthy (non-empty) string, mirroring `existing && existing.merged_at`. -/
def detailAlreadyPresent (store : List RawRow) (endpoint : String) : Bool :=
  match latestDetailRow store endpoint with
  | some r =>
    match r.payload.mergedAt with
    | some m => decide (m ≠ "")
    | none => false
  | none => false

/-- The pull numbers whose details are still fetched: those not skipped. -/
def toFetchList (store : List RawRow) (owner repo : String) (nums : List Int) : List Int :=
  nums.filter (fun n => !(detailAlreadyPresent store (detailEndpoint owner repo n)))

/-! ## Raw-response store

Models `insertRawResponse` (src/lib/db/sqlite.ts): checksum the serialized
payload, skip when an identical (source, endpoint, checksum) row was fetched
within the last 60 minutes, insert otherwise.  Fetch times are modelled in
seconds; the hash is an arbitrary deterministic function. -/

/-- The result type of `insertRawResponse`. -/
inductive InsertResult where
  | inserted (id : Nat)
  | skipped (skippedReason : String)
deriving DecidableEq, Repr

/-- One row of api_raw_responses as the store interface writes it. -/
structure StoredResponse where
  id : Nat
  source : String
  endpoint : String
  statusCode : Option Int
  payloadString : String
  checksum : String
  fetchedAt : Nat
deriving DecidableEq, Repr

/-- The dedup SELECT: identical (source, endpoint, checksum) fetched within
the last 60 minutes (fetched_at at least now minus 3600 seconds). -/
def isRecentDuplicate (now : Nat) (source endpoint checksum : String)
    (r : StoredResponse) : Bool :=
  decide (r.source = source) && decide (r.endpoint = endpoint) &&
  decide (r.checksum = checksum) && decide (now ≤ r.fetchedAt + 3600)

/-- Embeds `insertRawResponse`: returns the new store, the next free row
identifier, and the insert/skip result. -/
def insertRawResponse (hash : String → String) (store : List StoredResponse)
    (nextId now : Nat) (source endpoint : String) (statusCode : Option Int)
    (payloadString : String) : List StoredResponse × Nat × InsertResult :=
  let checksum := hash payloadString
  match store.find? (isRecentDuplicate now source endpoint checksum) with
  | some _ => (store, nextId, InsertResult.skipped "duplicate within last 60 minutes")
  | none =>
    (store ++ [{ id := nextId, source := source, endpoint := endpoint,
                 statusCode := statusCode, payloadString := payloadString,
                 checksum := checksum, fetchedAt := now }],
     nextId + 1, InsertResult.inserted nextId)

/-! ## Listing pagination

Models the page loop of syncMergedPullRequestsRaw (ingestMergedPullRequests.ts
lines 246-293).  A listing endpoint is a function from page number to items;
item update times are epoch milliseconds, absent when updated_at is missing
or unparsable.  Storing each page's payload does not feed back into any loop
decision and is omitted from the loop state. -/

/-- One item of a listing page, reduced to the fields the loop reads. -/
structure ListItem where
  number : Option Int
  updatedAt : Option Int
deriving DecidableEq, Repr

/-- Collecting a page's PR numbers into the ordered set of seen numbers. -/
def addPageNumbers (seen : List Int) (items : List ListItem) : List Int :=
  items.foldl
    (fun acc it =>
      match it.number with
      | some n => if n ∈ acc then acc else acc ++ [n]
      | none => acc)
    seen

/-- Whether the page's last item has a parsable update time before the
window start. -/
def lastItemPredates (items : List ListItem) (sinceMs : Int) : Bool :=
  match items.getLast? with
  | some it =>
    match it.updatedAt with
    | some t => decide (t < sinceMs)
    | none => false
  | none => false

/-- The page loop, with the remaining page budget as fuel: fetch the page,
accumulate its numbers, stop on an empty page or the detail cap, stop when
the last item predates the window, else continue with the next page.
Returns pages fetched and the accumulated numbers. -/
def paginateAux (pages : Nat → List ListItem) (maxPrDetails : Nat) (sinceMs : Int) :
    Nat → Nat → List Int → Nat → Nat × List Int
  | 0, _, seen, fetched => (fetched, seen)
  | fuel + 1, page, seen, fetched =>
    if (pages page).isEmpty ||
        decide (maxPrDetails ≤ (addPageNumbers seen (pages page)).length) then
      (fetched + 1, addPageNumbers seen (pages page))
    else if lastItemPredates (pages page) sinceMs then
      (fetched + 1, addPageNumbers seen (pages page))
    else
      paginateAux pages maxPrDetails sinceMs fuel (page + 1)
        (addPageNumbers seen (pages page)) (fetched + 1)

/-- The loop from page 1 with budget maxListPages, no numbers seen. -/
def paginate (pages : Nat → List ListItem) (maxPrDetails : Nat) (sinceMs : Int)
    (maxListPages : Nat) : Nat × List Int :=
  paginateAux pages maxPrDetails sinceMs maxListPages 1 [] 0

/-- The unique numbers accumulated after processing pages 1 through p. -/
def discoveredUpTo (pages : Nat → List ListItem) (p : Nat) : List Int :=
  (List.range p).foldl (fun acc i => addPageNumbers acc (pages (i + 1))) []

/-- The loop's stop condition evaluated at page p: empty page, detail cap
reached by the numbers accumulated through page p, or last item predating
the window start. -/
def stopConditionAt (pages : Nat → List ListItem) (maxPrDetails : Nat) (sinceMs : Int)
    (p : Nat) : Bool :=
  (pages p).isEmpty || decide (maxPrDetails ≤ (discoveredUpTo pages p).length) ||
  lastItemPredates (pages p) sinceMs

/-! ## Author aggregation

Models the aggregation of computeTopAuthors
(src/lib/github/impact/computeAuthorStats.ts lines 64-89) and the read-path
fallback aggregation of the impact-authors GET route: filter facts to the
window, exclude bot logins, group by (author, author_url), order, take 5. -/

/-- The bot filter `lower(author) NOT LIKE !%[bot]!`: the lowercased login
ends with the five characters of the bot suffix. -/
def isBotLogin (author : String) : Bool :=
  "[bot]".data.isSuffixOf (lowerChars author)

/-- The WHERE clause of both aggregation queries: owner, repo, merged_at
within [since, until] as text, and not a bot login. -/
def factInWindow (owner repo sinceIso untilIso : String) (f : FactRow) : Bool :=
  decide (f.owner = owner) && decide (f.repo = repo) &&
  strLe sinceIso f.merged_at && strLe f.merged_at untilIso &&
  !(isBotLogin f.author)

/-- One aggregated leaderboard row. -/
structure AuthorStat where
  author : String
  authorUrl : String
  totalScore : Rat
  totalPrs : Nat
  featCount : Nat
  fixCount : Nat
  choreCount : Nat
  revertCount : Nat
  otherCount : Nat
deriving DecidableEq, Repr

/-- Count of facts of one classification kind in a group. -/
def countKind (g : List FactRow) (k : String) : Nat :=
  (g.filter (fun f => decide (f.kind = k))).length

/-- The SELECT aggregates for one (author, author_url) group. -/
def statsForKey (fs : List FactRow) (key : String × String) : AuthorStat :=
  let g := fs.filter (fun f => decide (f.author = key.1) && decide (f.author_url = key.2))
  { author := key.1, authorUrl := key.2,
    totalScore := (g.map (fun f => f.points)).sum,
    totalPrs := g.length,
    featCount := countKind g "feat", fixCount := countKind g "fix",
    choreCount := countKind g "chore", revertCount := countKind g "revert",
    otherCount := countKind g "other" }

/-- GROUP BY (author, author_url) over the facts passing the WHERE clause. -/
def aggregateAuthors (facts : List FactRow) (owner repo sinceIso untilIso : String) :
    List AuthorStat :=
  let fs := facts.filter (factInWindow owner repo sinceIso untilIso)
  ((fs.map (fun f => (f.author, f.author_url))).dedup).map (statsForKey fs)

/-- ORDER BY totalScore DESC, totalPrs DESC as a boolean order: a precedes b
when a's score is greater, or equal with at least b's PR count. -/
def scoreOrder (a b : AuthorStat) : Bool :=
  decide (b.totalScore < a.totalScore) ||
  (decide (a.totalScore = b.totalScore) && decide (b.totalPrs ≤ a.totalPrs))

/-- Insertion into a list sorted by the given boolean order. -/
def insertSorted (le : AuthorStat → AuthorStat → Bool) (a : AuthorStat) :
    List AuthorStat → List AuthorStat
  | [] => [a]
  | b :: rest => if le a b then a :: b :: rest else b :: insertSorted le a rest

/-- Sorting by the given boolean order (the ORDER BY of the queries). -/
def sortStats (le : AuthorStat → AuthorStat → Bool) (l : List AuthorStat) :
    List AuthorStat :=
  l.foldr (insertSorted le) []

/-- The recompute path's leaderboard: aggregate, order by score then PR
count, LIMIT 5. -/
def computeTopAuthors (facts : List FactRow) (owner repo sinceIso untilIso : String) :
    List AuthorStat :=
  (sortStats scoreOrder (aggregateAuthors facts owner repo sinceIso untilIso)).take 5

/-- The read path's ORDER_BY_MAP: each ranking key orders by its kind count
descending then total score descending; unknown keys fall back to overall. -/
def rankOrder (rankBy : String) (a b : AuthorStat) : Bool :=
  if rankBy = "feat" then
    decide (b.featCount < a.featCount) ||
    (decide (a.featCount = b.featCount) && decide (b.totalScore ≤ a.totalScore))
  else if rankBy = "fix" then
    decide (b.fixCount < a.fixCount) ||
    (decide (a.fixCount = b.fixCount) && decide (b.totalScore ≤ a.totalScore))
  else if rankBy = "chore" then
    decide (b.choreCount < a.choreCount) ||
    (decide (a.choreCount = b.choreCount) && decide (b.totalScore ≤ a.totalScore))
  else if rankBy = "revert" then
    decide (b.revertCount < a.revertCount) ||
    (decide (a.revertCount = b.revertCount) && decide (b.totalScore ≤ a.totalScore))
  else if rankBy = "other" then
    decide (b.otherCount < a.otherCount) ||
    (decide (a.otherCount = b.otherCount) && decide (b.totalScore ≤ a.totalScore))
  else scoreOrder a b

/-- The read-path fallback leaderboard aggregated directly from facts when no
precomputed statistics row exists: same WHERE clause and grouping, ordered by
the requested ranking, LIMIT 5. -/
def readFallbackTopAuthors (facts : List FactRow) (owner repo sinceIso untilIso rankBy : String) :
    List AuthorStat :=
  (sortStats (rankOrder rankBy) (aggregateAuthors facts owner repo sinceIso untilIso)).take 5

/-! ## Helper lemmas -/

/-- A character built from a codepoint in the lowercase-letter range keeps
that codepoint. -/
theorem charOfNat_toNat (n : Nat) (h1 : 97 ≤ n) (h2 : n ≤ 122) :
    (Char.ofNat n).toNat = n := by
  have hv : n.isValidChar := Or.inl (by omega)
  simp [Char.ofNat, hv, Char.ofNatAux, Char.toNat, UInt32.toNat]

/-- Lowercasing maps no character other than the colon itself to a colon. -/
theorem toLower_eq_colon_iff (c : Char) : Char.toLower c = ':' ↔ c = ':' := by
  constructor
  · intro h
    by_cases hc : c.toNat ≥ 65 ∧ c.toNat ≤ 90
    · exfalso
      simp only [Char.toLower] at h
      rw [if_pos hc] at h
      have h2 := congrArg Char.toNat h
      rw [charOfNat_toNat (c.toNat + 32) (by omega) (by omega)] at h2
      have h3 : (':' : Char).toNat = 58 := by decide
      rw [h3] at h2
      omega
    · simp only [Char.toLower] at h
      rwa [if_neg hc] at h
  · intro h
    subst h
    decide

/-- Taking while a predicate holds stops no later than a failing element,
independently of what follows it. -/
theorem takeWhile_append_cons (p : Char → Bool) (xs ys : List Char) (y : Char)
    (h : p y = false) : List.takeWhile p (xs ++ y :: ys) = List.takeWhile p xs := by
  induction xs with
  | nil => simp [List.takeWhile_cons, h]
  | cons x xs ih => by_cases hx : p x <;> simp [List.takeWhile_cons, hx, ih]

/-- Two incomparable keyword patterns cannot both start the same segment. -/
theorem prefixOf_excludes (p q seg : List Char) (hpq : p.isPrefixOf q = false)
    (hqp : q.isPrefixOf p = false) (h : p.isPrefixOf seg = true) :
    q.isPrefixOf seg = false := by
  rw [List.isPrefixOf_iff_prefix] at h
  rw [← Bool.not_eq_true, List.isPrefixOf_iff_prefix]
  intro hq
  rcases List.prefix_or_prefix_of_prefix h hq with hc | hc
  · rw [← Bool.not_eq_true, List.isPrefixOf_iff_prefix] at hpq
    exact hpq hc
  · rw [← Bool.not_eq_true, List.isPrefixOf_iff_prefix] at hqp
    exact hqp hc

/-- Classification depends on the title only through its pre-colon segment. -/
theorem deriveKind_eq_of_seg_eq (t u : String)
    (h : preColonSegment t = preColonSegment u) : deriveKind t = deriveKind u := by
  simp only [deriveKind]
  rw [h]

/-- The feat bucket: a segment starting with feat scores 3. -/
theorem deriveKind_of_feat (t : String)
    (h : "feat".data.isPrefixOf (preColonSegment t) = true) :
    deriveKind t = ("feat", 3) := by
  simp [deriveKind, h]

/-- The fix bucket: a segment starting with fix scores 2. -/
theorem deriveKind_of_fix (t : String)
    (h : "fix".data.isPrefixOf (preColonSegment t) = true) :
    deriveKind t = ("fix", 2) := by
  have hfeat := prefixOf_excludes "fix".data "feat".data _ (by decide) (by decide) h
  simp [deriveKind, h, hfeat]

/-- The chore bucket: a segment starting with chore scores 1. -/
theorem deriveKind_of_chore (t : String)
    (h : "chore".data.isPrefixOf (preColonSegment t) = true) :
    deriveKind t = ("chore", 1) := by
  have hfeat := prefixOf_excludes "chore".data "feat".data _ (by decide) (by decide) h
  have hfix := prefixOf_excludes "chore".data "fix".data _ (by decide) (by decide) h
  simp [deriveKind, h, hfeat, hfix]

/-- The revert bucket: a segment starting with revert scores 0.5. -/
theorem deriveKind_of_revert (t : String)
    (h : "revert".data.isPrefixOf (preColonSegment t) = true) :
    deriveKind t = ("revert", halfPoint) := by
  have hfeat := prefixOf_excludes "revert".data "feat".data _ (by decide) (by decide) h
  have hfix := prefixOf_excludes "revert".data "fix".data _ (by decide) (by decide) h
  have hchore := prefixOf_excludes "revert".data "chore".data _ (by decide) (by decide) h
  simp [deriveKind, h, hfeat, hfix, hchore]

/-- The segment of a title with a colon ignores everything after the first
colon. -/
theorem preColonSegment_append_colon (s t : List Char) :
    preColonSegment (String.mk (s ++ ':' :: t)) =
      trimChars (List.takeWhile (fun c => decide (c ≠ ':')) (s.map Char.toLower)) := by
  have hcolon : Char.toLower ':' = ':' := by decide
  have hfalse : (fun c => decide (c ≠ ':')) ':' = false := by decide
  simp only [preColonSegment, lowerChars, String.mk, List.map_append, List.map_cons, hcolon]
  rw [takeWhile_append_cons _ _ _ _ hfalse]

/-! ## C1: rate-limit classification of failed origin fetches -/

/-- C1 counterexample: the claim says a failure is classified as rate-limit
exactly when the status is in the 403/429 class and rate-limit headers are
present.  The code classifies on status 403 alone: a 429 response carrying
both rate-limit headers propagates as an ordinary origin HTTP error, while a
403 response without any rate-limit header is re-raised as the rate-limit
kind (with null rate-limit info). -/
theorem rate_limit_classification_claim_false :
    rethrowIfRateLimit (FetchError.http 429 (some "0") (some "1700000000") "limited") =
      SyncFetchError.http 429 (some "0") (some "1700000000") "limited" ∧
    isRateLimitError
      (rethrowIfRateLimit (FetchError.http 429 (some "0") (some "1700000000") "limited")) =
      false ∧
    rethrowIfRateLimit (FetchError.http 403 none none "forbidden") =
      SyncFetchError.rateLimit 403 none ∧
    isRateLimitError (rethrowIfRateLimit (FetchError.http 403 none none "forbidden")) =
      true :=
  ⟨by decide, by decide, by decide, by decide⟩

/-- C1 (amended): a failed origin fetch is re-raised as the distinct
rate-limit error kind exactly when its HTTP status equals 403, regardless of
whether rate-limit headers are present (they are attached when present, null
otherwise); every other non-success response propagates as the ordinary
origin HTTP error carrying status, headers and body, and `githubFetchJson`
fails with that error exactly when the response is not successful. -/
theorem rate_limit_classification_amended :
    (∀ (st : Nat) (rem reset : Option String) (b : String),
      rethrowIfRateLimit (FetchError.http st rem reset b) =
        if st = 403 then SyncFetchError.rateLimit st (extractRateLimit rem reset)
        else SyncFetchError.http st rem reset b) ∧
    (∀ e : FetchError,
      isRateLimitError (rethrowIfRateLimit e) = true ↔ fetchErrorStatus e = some 403) ∧
    (∀ m : String, rethrowIfRateLimit (FetchError.other m) = SyncFetchError.other m) ∧
    (∀ resp : HttpResponse,
      githubFetchJson resp "data" =
          Except.error (FetchError.http resp.status resp.rlRemaining resp.rlReset resp.bodyText)
        ↔ responseOk resp = false) := by
  refine ⟨?_, ?_, ?_, ?_⟩
  · intro st rem reset b
    rfl
  · intro e
    cases e with
    | http st rem reset b =>
      by_cases hst : st = 403
      · subst hst
        simp [rethrowIfRateLimit, isRateLimitError, fetchErrorStatus]
      · simp [rethrowIfRateLimit, isRateLimitError, fetchErrorStatus, hst]
    | other m =>
      simp [rethrowIfRateLimit, isRateLimitError, fetchErrorStatus]
  · intro m
    rfl
  · intro resp
    cases hok : responseOk resp <;> simp [githubFetchJson, hok]

/-! ## C3: title classification -/

/-- C3: classification is case-insensitive and applied to the trimmed segment
before the first colon; a segment starting with feat yields (feat, 3), fix
yields (fix, 2), chore yields (chore, 1), revert yields (revert, 0.5), and
anything else yields (other, 0.5); characters after the first colon never
affect the result.  The spec's example titles classify as stated. -/
theorem title_classification_spec :
    (deriveKind "feat(auth): add OAuth" = ("feat", 3) ∧
     deriveKind "fix: x" = ("fix", 2) ∧
     deriveKind "chore: y" = ("chore", 1) ∧
     deriveKind "revert: z" = ("revert", halfPoint) ∧
     deriveKind "docs: z" = ("other", halfPoint) ∧
     halfPoint = 1 / 2) ∧
    (∀ s t u : List Char,
      deriveKind (String.mk (s ++ ':' :: t)) = deriveKind (String.mk (s ++ ':' :: u))) ∧
    (∀ t u : String, t.data.map Char.toLower = u.data.map Char.toLower →
      deriveKind t = deriveKind u) ∧
    (∀ t : String,
      ("feat".data.isPrefixOf (preColonSegment t) = true → deriveKind t = ("feat", 3)) ∧
      ("fix".data.isPrefixOf (preColonSegment t) = true → deriveKind t = ("fix", 2)) ∧
      ("chore".data.isPrefixOf (preColonSegment t) = true → deriveKind t = ("chore", 1)) ∧
      ("revert".data.isPrefixOf (preColonSegment t) = true →
        deriveKind t = ("revert", halfPoint)) ∧
      ("feat".data.isPrefixOf (preColonSegment t) = false →
        "fix".data.isPrefixOf (preColonSegment t) = false →
        "chore".data.isPrefixOf (preColonSegment t) = false →
        "revert".data.isPrefixOf (preColonSegment t) = false →
        deriveKind t = ("other", halfPoint))) := by
  refine ⟨⟨by decide, by decide, by decide, by decide, by decide, ?_⟩, ?_, ?_, ?_⟩
  · rw [← Rat.num_div_den halfPoint]
    norm_num [halfPoint]
  · intro s t u
    apply deriveKind_eq_of_seg_eq
    rw [preColonSegment_append_colon, preColonSegment_append_colon]
  · intro t u h
    apply deriveKind_eq_of_seg_eq
    simp only [preColonSegment, lowerChars, h]
  · intro t
    refine ⟨deriveKind_of_feat t, deriveKind_of_fix t, deriveKind_of_chore t,
      deriveKind_of_revert t, ?_⟩
    intro h1 h2 h3 h4
    simp [deriveKind, h1, h2, h3, h4]

/-- C3 witness: the bucket implications applied at a concrete title whose
segment "fix(scope)" starts with fix. -/
theorem title_classification_spec_witness :
    "fix".data.isPrefixOf (preColonSegment "Fix(scope): y") = true ∧
    deriveKind "Fix(scope): y" = ("fix", 2) :=
  ⟨by decide, (title_classification_spec.2.2.2 "Fix(scope): y").2.1 (by decide)⟩

/-! ## C10: starts-with matching and titles without a colon -/

/-- For a predicate holding on every element, takeWhile keeps the whole
list. -/
theorem takeWhile_of_all (p : Char → Bool) (l : List Char)
    (h : ∀ c ∈ l, p c = true) : List.takeWhile p l = l :=
  List.takeWhile_eq_self_iff.mpr h

/-- C10: a title with no colon is classified on its whole trimmed lowercased
text, and each bucket test is a starts-with match: "Fixed" classifies as
(fix, 2), "Features" as (feat, 3), and keywords continued by more letters
before the colon still match their bucket ("feature:" is feat, "fixes:"
is fix). -/
theorem classification_starts_with_no_colon :
    (∀ t : String, ':' ∉ t.data →
      preColonSegment t = trimChars (lowerChars t)) ∧
    deriveKind "Fixed" = ("fix", 2) ∧
    deriveKind "Features" = ("feat", 3) ∧
    deriveKind "feature: add dashboards" = ("feat", 3) ∧
    deriveKind "fixes: flaky test" = ("fix", 2) ∧
    deriveKind "Chores everywhere" = ("chore", 1) ∧
    deriveKind "Reverted the change" = ("revert", halfPoint) := by
  refine ⟨?_, by decide, by decide, by decide, by decide, by decide, by decide⟩
  intro t ht
  simp only [preColonSegment]
  rw [takeWhile_of_all]
  intro c hc
  simp only [lowerChars, List.mem_map] at hc
  obtain ⟨c0, hc0, rfl⟩ := hc
  have : c0 ≠ ':' := fun h => ht (h ▸ hc0)
  simp [decide_eq_true_eq]
  intro hcol
  exact this ((toLower_eq_colon_iff c0).mp hcol)

/-- C10 witness: the no-colon rule applied at the concrete title "Fixed". -/
theorem classification_starts_with_no_colon_witness :
    preColonSegment "Fixed" = trimChars (lowerChars "Fixed") :=
  classification_starts_with_no_colon.1 "Fixed" (by decide)

/-! ## C5: raw-store dedup window -/

/-- C5: for identical (source, endpoint, payload), the first store call
inserts a row and returns the inserted result with its identifier; a second
call within 60 minutes returns the duplicate-skip result without writing;
a third call after the window has elapsed inserts a second row. -/
theorem raw_store_dedup_window (hash : String → String) (store : List StoredResponse)
    (nextId : Nat) (source endpoint : String) (statusCode : Option Int)
    (payloadString : String) (t1 t2 t3 : Nat)
    (hclean : ∀ r ∈ store,
      ¬(r.source = source ∧ r.endpoint = endpoint ∧ r.checksum = hash payloadString))
    (h12 : t2 ≤ t1 + 3600) (h13 : t1 + 3600 < t3) :
    insertRawResponse hash store nextId t1 source endpoint statusCode payloadString =
      (store ++ [⟨nextId, source, endpoint, statusCode, payloadString,
                  hash payloadString, t1⟩],
       nextId + 1, InsertResult.inserted nextId) ∧
    insertRawResponse hash
        (store ++ [⟨nextId, source, endpoint, statusCode, payloadString,
                    hash payloadString, t1⟩])
        (nextId + 1) t2 source endpoint statusCode payloadString =
      (store ++ [⟨nextId, source, endpoint, statusCode, payloadString,
                  hash payloadString, t1⟩],
       nextId + 1, InsertResult.skipped "duplicate within last 60 minutes") ∧
    insertRawResponse hash
        (store ++ [⟨nextId, source, endpoint, statusCode, payloadString,
                    hash payloadString, t1⟩])
        (nextId + 1) t3 source endpoint statusCode payloadString =
      (store ++ [⟨nextId, source, endpoint, statusCode, payloadString,
                  hash payloadString, t1⟩,
                 ⟨nextId + 1, source, endpoint, statusCode, payloadString,
                  hash payloadString, t3⟩],
       nextId + 2, InsertResult.inserted (nextId + 1)) := by
  have hnone : ∀ now : Nat,
      store.find? (isRecentDuplicate now source endpoint (hash payloadString)) = none := by
    intro now
    rw [List.find?_eq_none]
    intro r hr
    simp only [isRecentDuplicate, Bool.and_eq_true, decide_eq_true_eq]
    rintro ⟨⟨⟨h1, h2⟩, h3⟩, h4⟩
    exact hclean r hr ⟨h1, h2, h3⟩
  have hdup : isRecentDuplicate t2 source endpoint (hash payloadString)
      ⟨nextId, source, endpoint, statusCode, payloadString, hash payloadString, t1⟩ = true := by
    simp [isRecentDuplicate, h12]
  have hnodup3 : isRecentDuplicate t3 source endpoint (hash payloadString)
      ⟨nextId, source, endpoint, statusCode, payloadString, hash payloadString, t1⟩ = false := by
    simp [isRecentDuplicate]
    omega
  refine ⟨?_, ?_, ?_⟩
  · simp [insertRawResponse, hnone t1]
  · simp [insertRawResponse, List.find?_append, hnone t2, List.find?_cons, hdup]
  · simp [insertRawResponse, List.find?_append, hnone t3, List.find?_cons, hnodup3]

/-- C5 witness: the dedup window behaviour at a concrete store and times
0, 3600 and 3601 seconds with the identity checksum function. -/
theorem raw_store_dedup_window_witness :
    insertRawResponse (fun s => s) [] 1 0 "github" "/repos/o/r" (some 200) "payload" =
      ([⟨1, "github", "/repos/o/r", some 200, "payload", "payload", 0⟩],
       2, InsertResult.inserted 1) ∧
    insertRawResponse (fun s => s)
        [⟨1, "github", "/repos/o/r", some 200, "payload", "payload", 0⟩] 2 3600
        "github" "/repos/o/r" (some 200) "payload" =
      ([⟨1, "github", "/repos/o/r", some 200, "payload", "payload", 0⟩],
       2, InsertResult.skipped "duplicate within last 60 minutes") ∧
    insertRawResponse (fun s => s)
        [⟨1, "github", "/repos/o/r", some 200, "payload", "payload", 0⟩] 2 3601
        "github" "/repos/o/r" (some 200) "payload" =
      ([⟨1, "github", "/repos/o/r", some 200, "payload", "payload", 0⟩,
        ⟨2, "github", "/repos/o/r", some 200, "payload", "payload", 3601⟩],
       3, InsertResult.inserted 2) := by
  have h := raw_store_dedup_window (fun s => s) [] 1 "github" "/repos/o/r" (some 200)
    "payload" 0 3600 3601 (by simp) (by omega) (by omega)
  simpa using h

/-! ## Row-maximum helper lemmas -/

/-- The maximum-identifier row is a member of the list. -/
theorem maxRowById_mem (l : List RawRow) (r : RawRow) (h : maxRowById l = some r) :
    r ∈ l := by
  induction l generalizing r with
  | nil => simp [maxRowById] at h
  | cons a l ih =>
    rw [maxRowById] at h
    split at h
    · cases h
      exact List.mem_cons_self a l
    · rename_i m hm
      split at h
      · cases h
        exact List.mem_cons_self a l
      · cases h
        exact List.mem_cons_of_mem a (ih _ hm)

/-- The list is empty exactly when it has no maximum-identifier row. -/
theorem maxRowById_eq_none (l : List RawRow) : maxRowById l = none ↔ l = [] := by
  cases l with
  | nil => simp [maxRowById]
  | cons a l =>
    constructor
    · intro h
      exfalso
      rw [maxRowById] at h
      split at h
      · exact Option.noConfusion h
      · split at h <;> exact Option.noConfusion h
    · intro h
      exact absurd h (List.cons_ne_nil a l)

/-- Every row's identifier is bounded by the maximum row's identifier. -/
theorem maxRowById_ge (l : List RawRow) (r : RawRow) (h : maxRowById l = some r) :
    ∀ x ∈ l, x.id ≤ r.id := by
  induction l generalizing r with
  | nil => simp
  | cons a l ih =>
    intro x hx
    rw [maxRowById] at h
    split at h
    · rename_i hm
      cases h
      rcases List.mem_cons.mp hx with hxa | hxl
      · exact hxa ▸ Nat.le_refl _
      · rw [(maxRowById_eq_none l).mp hm] at hxl
        simp at hxl
    · rename_i m hm
      split at h
      · rename_i hle
        cases h
        rcases List.mem_cons.mp hx with hxa | hxl
        · exact hxa ▸ Nat.le_refl _
        · exact Nat.le_trans (ih m hm x hxl) hle
      · rename_i hle
        cases h
        rcases List.mem_cons.mp hx with hxa | hxl
        · exact hxa ▸ Nat.le_of_not_le hle
        · exact ih r hm x hxl

/-! ## C7: skipping already stored merged details -/

/-- C7 counterexample: the claim says a discovered PR's detail fetch is
skipped whenever some stored successful detail row with a non-null merge
timestamp exists for the endpoint.  The code only inspects the most recently
stored successful row: with an older merged row (id 1) shadowed by a newer
unmerged row (id 2) under the same endpoint, the claim demands a skip but the
code schedules the fetch. -/
theorem detail_skip_claim_false :
    detailAlreadyPresent
      [⟨1, "github", "/repos/o/r/pulls/7", 200,
        ⟨some 7, some "2024-01-02T00:00:00Z", some "main", some "u", some "t", some "a", none⟩,
        "2024-01-02"⟩,
       ⟨2, "github", "/repos/o/r/pulls/7", 200,
        ⟨some 7, none, some "main", some "u", some "t", some "a", none⟩,
        "2024-01-03"⟩]
      "/repos/o/r/pulls/7" = false ∧
    (∃ r ∈ [(⟨1, "github", "/repos/o/r/pulls/7", 200,
        ⟨some 7, some "2024-01-02T00:00:00Z", some "main", some "u", some "t", some "a", none⟩,
        "2024-01-02"⟩ : RawRow),
       ⟨2, "github", "/repos/o/r/pulls/7", 200,
        ⟨some 7, none, some "main", some "u", some "t", some "a", none⟩,
        "2024-01-03"⟩],
      r.source = "github" ∧ r.endpoint = "/repos/o/r/pulls/7" ∧
        r.statusCode = 200 ∧ r.payload.mergedAt ≠ none) ∧
    toFetchList
      [⟨1, "github", "/repos/o/r/pulls/7", 200,
        ⟨some 7, some "2024-01-02T00:00:00Z", some "main", some "u", some "t", some "a", none⟩,
        "2024-01-02"⟩,
       ⟨2, "github", "/repos/o/r/pulls/7", 200,
        ⟨some 7, none, some "main", some "u", some "t", some "a", none⟩,
        "2024-01-03"⟩]
      "o" "r" [7] = [7] :=
  ⟨by decide, by decide, by decide⟩

/-- C7 (amended): a discovered PR's detail fetch is skipped exactly when the
most recently stored successful detail row for its endpoint (the matching
row of greatest identifier) carries a truthy — present and non-empty —
merge timestamp; every non-skipped number remains in the list to fetch. -/
theorem detail_skip_latest_row_amended (store : List RawRow) (owner repo : String)
    (nums : List Int) (hids : (store.map (fun r => r.id)).Nodup)
    (n : Int) (hn : n ∈ nums) :
    (detailAlreadyPresent store (detailEndpoint owner repo n) = true ↔
      ∃ r ∈ store, isStoredDetailSuccess (detailEndpoint owner repo n) r = true ∧
        (∃ m, r.payload.mergedAt = some m ∧ m ≠ "") ∧
        ∀ s ∈ store, isStoredDetailSuccess (detailEndpoint owner repo n) s = true →
          s.id ≤ r.id) ∧
    (n ∈ toFetchList store owner repo nums ↔
      detailAlreadyPresent store (detailEndpoint owner repo n) = false) := by
  constructor
  · constructor
    · intro h
      simp only [detailAlreadyPresent, latestDetailRow] at h
      split at h
      · rename_i r hmax
        have hrmem := maxRowById_mem _ _ hmax
        have hrf := List.mem_filter.mp hrmem
        refine ⟨r, hrf.1, hrf.2, ?_, ?_⟩
        · split at h
          · rename_i m hm
            exact ⟨m, hm, by simpa using h⟩
          · exact absurd h (by simp)
        · intro s hs hsd
          exact maxRowById_ge _ _ hmax s (List.mem_filter.mpr ⟨hs, hsd⟩)
      · exact absurd h (by simp)
    · rintro ⟨r, hr, hrd, ⟨m, hm, hme⟩, hmax⟩
      have hrf : r ∈ store.filter (isStoredDetailSuccess (detailEndpoint owner repo n)) :=
        List.mem_filter.mpr ⟨hr, hrd⟩
      cases hmx : maxRowById (store.filter (isStoredDetailSuccess (detailEndpoint owner repo n))) with
      | none =>
        rw [maxRowById_eq_none] at hmx
        rw [hmx] at hrf
        simp at hrf
      | some r0 =>
        have hr0f := maxRowById_mem _ _ hmx
        have hr0 := List.mem_filter.mp hr0f
        have hle1 : r.id ≤ r0.id := maxRowById_ge _ _ hmx r hrf
        have hle2 : r0.id ≤ r.id := hmax r0 hr0.1 hr0.2
        have hreq : r0 = r :=
          List.inj_on_of_nodup_map hids hr0.1 hr (Nat.le_antisymm hle2 hle1)
        simp only [detailAlreadyPresent, latestDetailRow, hmx, hreq, hm]
        simpa using hme
  · simp only [toFetchList, List.mem_filter, hn, true_and, Bool.not_eq_true']

/-- C7 witness: a store holding a single merged successful detail row; its
PR number is skipped, so the fetch list membership test matches the negated
skip decision. -/
theorem detail_skip_latest_row_amended_witness :
    7 ∈ toFetchList
        [⟨1, "github", "/repos/o/r/pulls/7", 200,
          ⟨some 7, some "2024-01-02T00:00:00Z", some "main", some "u", some "t", some "a", none⟩,
          "2024-01-02"⟩]
        "o" "r" [7] ↔
      detailAlreadyPresent
        [⟨1, "github", "/repos/o/r/pulls/7", 200,
          ⟨some 7, some "2024-01-02T00:00:00Z", some "main", some "u", some "t", some "a", none⟩,
          "2024-01-02"⟩]
        (detailEndpoint "o" "r" 7) = false :=
  (detail_skip_latest_row_amended
    [⟨1, "github", "/repos/o/r/pulls/7", 200,
      ⟨some 7, some "2024-01-02T00:00:00Z", some "main", some "u", some "t", some "a", none⟩,
      "2024-01-02"⟩]
    "o" "r" [7] (by decide) 7 (by decide)).2

/-! ## C6: pagination termination -/

/-- Accumulated numbers after one more page. -/
theorem discoveredUpTo_succ (pages : Nat → List ListItem) (k : Nat) :
    discoveredUpTo pages (k + 1) =
      addPageNumbers (discoveredUpTo pages k) (pages (k + 1)) := by
  simp [discoveredUpTo, List.range_succ, List.foldl_append]

/-- Invariant of the page loop, entered at page k+1 with the numbers of
pages 1..k already accumulated and k pages fetched: the final page count
stays in [k, k+fuel], moves past k whenever any budget remains, never passes
a page whose stop condition holds, and never stops before a page whose stop
condition fails. -/
theorem paginateAux_spec (pages : Nat → List ListItem) (maxPrDetails : Nat)
    (sinceMs : Int) :
    ∀ fuel k : Nat,
      k ≤ (paginateAux pages maxPrDetails sinceMs fuel (k + 1) (discoveredUpTo pages k) k).1 ∧
      (paginateAux pages maxPrDetails sinceMs fuel (k + 1) (discoveredUpTo pages k) k).1 ≤
        k + fuel ∧
      (1 ≤ fuel →
        k + 1 ≤ (paginateAux pages maxPrDetails sinceMs fuel (k + 1) (discoveredUpTo pages k) k).1) ∧
      (∀ p, k + 1 ≤ p → p ≤ k + fuel →
        stopConditionAt pages maxPrDetails sinceMs p = true →
        (paginateAux pages maxPrDetails sinceMs fuel (k + 1) (discoveredUpTo pages k) k).1 ≤ p) ∧
      (∀ p, k + 1 ≤ p →
        p < (paginateAux pages maxPrDetails sinceMs fuel (k + 1) (discoveredUpTo pages k) k).1 →
        stopConditionAt pages maxPrDetails sinceMs p = false) := by
  intro fuel
  induction fuel with
  | zero =>
    intro k
    simp only [paginateAux]
    refine ⟨Nat.le_refl k, Nat.le_refl k, by omega, ?_, ?_⟩
    · intro p hp1 hp2
      omega
    · intro p hp1 hp2
      omega
  | succ fuel ih =>
    intro k
    rw [paginateAux, ← discoveredUpTo_succ]
    by_cases hA : ((pages (k + 1)).isEmpty ||
        decide (maxPrDetails ≤ (discoveredUpTo pages (k + 1)).length)) = true
    · rw [if_pos hA]
      refine ⟨by omega, by omega, by omega, ?_, ?_⟩
      · intro p hp1 hp2 hstop
        exact hp1
      · intro p hp1 hp2
        omega
    · rw [if_neg hA]
      by_cases hB : lastItemPredates (pages (k + 1)) sinceMs = true
      · rw [if_pos hB]
        refine ⟨by omega, by omega, by omega, ?_, ?_⟩
        · intro p hp1 hp2 hstop
          exact hp1
        · intro p hp1 hp2
          omega
      · rw [if_neg hB]
        have hstopf : stopConditionAt pages maxPrDetails sinceMs (k + 1) = false := by
          simp only [stopConditionAt, Bool.or_eq_true] at hA hB ⊢
          simp only [Bool.or_eq_false_iff]
          constructor
          · constructor
            · cases hE : (pages (k + 1)).isEmpty
              · rfl
              · exact absurd (Or.inl hE) hA
            · cases hC : decide (maxPrDetails ≤ (discoveredUpTo pages (k + 1)).length)
              · rfl
              · exact absurd (Or.inr hC) hA
          · cases hD : lastItemPredates (pages (k + 1)) sinceMs
            · rfl
            · exact absurd hD hB
        obtain ⟨ih1, ih2, ih3, ih4, ih5⟩ := ih (k + 1)
        refine ⟨by omega, by omega, by omega, ?_, ?_⟩
        · intro p hp1 hp2 hstop
          rcases Nat.eq_or_lt_of_le hp1 with hpe | hpl
          · rw [← hpe] at hstop
            rw [hstopf] at hstop
            exact absurd hstop (by simp)
          · exact ih4 p (by omega) (by omega) hstop
        · intro p hp1 hp2
          rcases Nat.eq_or_lt_of_le hp1 with hpe | hpl
          · rw [← hpe]
            exact hstopf
          · exact ih5 p (by omega) hp2

/-- C6: the page loop always terminates within maxListPages pages, fetches at
least one page, stops no later than the first page at which a stop condition
holds (empty page, unique-number count reaching the detail cap, or last item
updated before the window start), and fetches past a page only when no stop
condition held there — so discovery stops within one page of crossing the
lookback boundary instead of continuing to maxListPages. -/
theorem pagination_stops_at_first_condition (pages : Nat → List ListItem)
    (maxPrDetails : Nat) (sinceMs : Int) (maxListPages : Nat)
    (hmax : 1 ≤ maxListPages) :
    1 ≤ (paginate pages maxPrDetails sinceMs maxListPages).1 ∧
    (paginate pages maxPrDetails sinceMs maxListPages).1 ≤ maxListPages ∧
    (∀ p, 1 ≤ p → p ≤ maxListPages →
      stopConditionAt pages maxPrDetails sinceMs p = true →
      (paginate pages maxPrDetails sinceMs maxListPages).1 ≤ p) ∧
    (∀ p, 1 ≤ p → p < (paginate pages maxPrDetails sinceMs maxListPages).1 →
      stopConditionAt pages maxPrDetails sinceMs p = false) := by
  have h := paginateAux_spec pages maxPrDetails sinceMs maxListPages 0
  have hz : discoveredUpTo pages 0 = [] := rfl
  rw [hz] at h
  obtain ⟨h1, h2, h3, h4, h5⟩ := h
  exact ⟨h3 hmax, by simpa using h2, fun p hp1 hp2 => h4 p hp1 (by omega),
    fun p hp1 hp2 => h5 p hp1 hp2⟩

/-- C6 witness: a listing endpoint whose first page is already empty stops
the loop at page 1 out of a budget of 5. -/
theorem pagination_stops_witness :
    (paginate (fun _ => ([] : List ListItem)) 10 0 5).1 ≤ 1 :=
  (pagination_stops_at_first_condition (fun _ => []) 10 0 5 (by decide)).2.2.1
    1 (by decide) (by decide) (by decide)

/-! ## Sorting lemmas for the leaderboard queries -/

/-- Membership in an insertion step. -/
theorem mem_insertSorted (le : AuthorStat → AuthorStat → Bool) (a x : AuthorStat)
    (l : List AuthorStat) : x ∈ insertSorted le a l ↔ x = a ∨ x ∈ l := by
  induction l with
  | nil => simp [insertSorted]
  | cons b rest ih =>
    rw [insertSorted]
    by_cases hle : le a b = true
    · rw [if_pos hle]
      simp [List.mem_cons]
    · rw [if_neg hle]
      simp only [List.mem_cons, ih]
      tauto

/-- Insertion keeps the list pairwise ordered, for a total transitive
boolean order. -/
theorem pairwise_insertSorted (le : AuthorStat → AuthorStat → Bool)
    (htot : ∀ a b, le a b = true ∨ le b a = true)
    (htrans : ∀ a b c, le a b = true → le b c = true → le a c = true)
    (a : AuthorStat) (l : List AuthorStat)
    (h : l.Pairwise (fun x y => le x y = true)) :
    (insertSorted le a l).Pairwise (fun x y => le x y = true) := by
  induction l with
  | nil => simp [insertSorted]
  | cons b rest ih =>
    rw [List.pairwise_cons] at h
    obtain ⟨hb, hrest⟩ := h
    rw [insertSorted]
    by_cases hle : le a b = true
    · rw [if_pos hle]
      rw [List.pairwise_cons]
      refine ⟨?_, List.pairwise_cons.mpr ⟨hb, hrest⟩⟩
      intro x hx
      rcases List.mem_cons.mp hx with hxb | hxr
      · exact hxb ▸ hle
      · exact htrans a b x hle (hb x hxr)
    · rw [if_neg hle]
      rw [List.pairwise_cons]
      refine ⟨?_, ih hrest⟩
      intro x hx
      rcases (mem_insertSorted le a x rest).mp hx with hxa | hxr
      · subst hxa
        rcases htot x b with hab | hba
        · exact absurd hab hle
        · exact hba
      · exact hb x hxr

/-- The sorted list is pairwise ordered, for a total transitive boolean
order. -/
theorem sortStats_pairwise (le : AuthorStat → AuthorStat → Bool)
    (htot : ∀ a b, le a b = true ∨ le b a = true)
    (htrans : ∀ a b c, le a b = true → le b c = true → le a c = true)
    (l : List AuthorStat) :
    (sortStats le l).Pairwise (fun x y => le x y = true) := by
  induction l with
  | nil => simp [sortStats]
  | cons a rest ih =>
    simp only [sortStats, List.foldr_cons] at ih ⊢
    exact pairwise_insertSorted le htot htrans a _ ih

/-- Sorting preserves membership. -/
theorem mem_sortStats (le : AuthorStat → AuthorStat → Bool) (x : AuthorStat)
    (l : List AuthorStat) : x ∈ sortStats le l ↔ x ∈ l := by
  induction l with
  | nil => simp [sortStats]
  | cons a rest ih =>
    simp only [sortStats, List.foldr_cons] at ih ⊢
    rw [mem_insertSorted]
    simp [ih]

/-- The leaderboard order is total. -/
theorem scoreOrder_total (a b : AuthorStat) :
    scoreOrder a b = true ∨ scoreOrder b a = true := by
  simp only [scoreOrder, Bool.or_eq_true, Bool.and_eq_true, decide_eq_true_eq]
  rcases lt_trichotomy a.totalScore b.totalScore with h | h | h
  · exact Or.inr (Or.inl h)
  · rcases Nat.le_total b.totalPrs a.totalPrs with hp | hp
    · exact Or.inl (Or.inr ⟨h, hp⟩)
    · exact Or.inr (Or.inr ⟨h.symm, hp⟩)
  · exact Or.inl (Or.inl h)

/-- The leaderboard order is transitive. -/
theorem scoreOrder_trans (a b c : AuthorStat) (h1 : scoreOrder a b = true)
    (h2 : scoreOrder b c = true) : scoreOrder a c = true := by
  simp only [scoreOrder, Bool.or_eq_true, Bool.and_eq_true, decide_eq_true_eq] at h1 h2 ⊢
  rcases h1 with h1 | h1
  · rcases h2 with h2 | h2
    · exact Or.inl (lt_trans h2 h1)
    · exact Or.inl (lt_of_le_of_lt (le_of_eq h2.1.symm) h1)
  · rcases h2 with h2 | h2
    · exact Or.inl (lt_of_lt_of_le h2 (le_of_eq h1.1.symm))
    · exact Or.inr ⟨h1.1.trans h2.1, Nat.le_trans h2.2 h1.2⟩

/-! ## C9: aggregation ordering and top-5 cutoff -/

/-- C9: for a fixed repository and window, the recompute path's leaderboard
is ordered by total score descending with ties broken by total PR count
descending, and holds at most 5 authors however many qualify. -/
theorem top_authors_order_and_cutoff (facts : List FactRow)
    (owner repo sinceIso untilIso : String) :
    List.Pairwise
      (fun a b : AuthorStat =>
        b.totalScore < a.totalScore ∨
          (a.totalScore = b.totalScore ∧ b.totalPrs ≤ a.totalPrs))
      (computeTopAuthors facts owner repo sinceIso untilIso) ∧
    (computeTopAuthors facts owner repo sinceIso untilIso).length ≤ 5 := by
  constructor
  · have hp := sortStats_pairwise scoreOrder scoreOrder_total scoreOrder_trans
      (aggregateAuthors facts owner repo sinceIso untilIso)
    have hsub := List.take_sublist 5
      (sortStats scoreOrder (aggregateAuthors facts owner repo sinceIso untilIso))
    have hpt := List.Pairwise.sublist hsub hp
    refine hpt.imp ?_
    intro a b hab
    simp only [scoreOrder, Bool.or_eq_true, Bool.and_eq_true, decide_eq_true_eq] at hab
    exact hab
  · exact List.length_take_le 5
      (sortStats scoreOrder (aggregateAuthors facts owner repo sinceIso untilIso))

/-! ## C8: bot exclusion on both aggregation paths -/

/-- Every aggregated row's author passed the not-a-bot filter. -/
theorem aggregateAuthors_not_bot (facts : List FactRow)
    (owner repo sinceIso untilIso : String) (st : AuthorStat)
    (hst : st ∈ aggregateAuthors facts owner repo sinceIso untilIso) :
    isBotLogin st.author = false := by
  simp only [aggregateAuthors, List.mem_map] at hst
  obtain ⟨key, hkey, rfl⟩ := hst
  rw [List.mem_dedup, List.mem_map] at hkey
  obtain ⟨f, hf, hfk⟩ := hkey
  rw [List.mem_filter] at hf
  have hq := hf.2
  simp only [factInWindow, Bool.and_eq_true, Bool.not_eq_true'] at hq
  show isBotLogin key.1 = false
  rw [← hfk]
  exact hq.2

/-- C8: an author whose login ends with the case-insensitive suffix directly
naming a bot account never appears in the aggregated statistics — on the
recompute path and on the read-path fallback for any ranking key — whatever
score that author accumulated in the facts. -/
theorem bot_exclusion_both_paths (facts : List FactRow)
    (owner repo sinceIso untilIso rankBy author : String)
    (hbot : isBotLogin author = true) :
    author ∉ (computeTopAuthors facts owner repo sinceIso untilIso).map
        (fun s => s.author) ∧
    author ∉ (readFallbackTopAuthors facts owner repo sinceIso untilIso rankBy).map
        (fun s => s.author) := by
  constructor
  · intro hmem
    simp only [List.mem_map] at hmem
    obtain ⟨st, hst, hsta⟩ := hmem
    have h1 : st ∈ sortStats scoreOrder (aggregateAuthors facts owner repo sinceIso untilIso) :=
      List.mem_of_mem_take hst
    have h2 := (mem_sortStats _ _ _).mp h1
    have h3 := aggregateAuthors_not_bot facts owner repo sinceIso untilIso st h2
    rw [hsta] at h3
    rw [h3] at hbot
    exact Bool.noConfusion hbot
  · intro hmem
    simp only [List.mem_map] at hmem
    obtain ⟨st, hst, hsta⟩ := hmem
    have h1 : st ∈ sortStats (rankOrder rankBy)
        (aggregateAuthors facts owner repo sinceIso untilIso) :=
      List.mem_of_mem_take hst
    have h2 := (mem_sortStats _ _ _).mp h1
    have h3 := aggregateAuthors_not_bot facts owner repo sinceIso untilIso st h2
    rw [hsta] at h3
    rw [h3] at hbot
    exact Bool.noConfusion hbot

/-- C8 witness: the bot login of the spec's example, holding a high-scoring
fact, still appears on neither path's leaderboard. -/
theorem bot_exclusion_both_paths_witness :
    "renovate[bot]" ∉
      (computeTopAuthors
        [⟨"o", "r", "https://github.com/o/r/pull/1", "2024-01-05T00:00:00Z",
          "feat: bump deps", "renovate[bot]", "https://github.com/renovate[bot]",
          "feat", 3, 1, "2024-01-06"⟩]
        "o" "r" "2024-01-01T00:00:00Z" "2024-12-31T00:00:00Z").map (fun s => s.author) ∧
    "renovate[bot]" ∉
      (readFallbackTopAuthors
        [⟨"o", "r", "https://github.com/o/r/pull/1", "2024-01-05T00:00:00Z",
          "feat: bump deps", "renovate[bot]", "https://github.com/renovate[bot]",
          "feat", 3, 1, "2024-01-06"⟩]
        "o" "r" "2024-01-01T00:00:00Z" "2024-12-31T00:00:00Z" "overall").map
        (fun s => s.author) :=
  bot_exclusion_both_paths
    [⟨"o", "r", "https://github.com/o/r/pull/1", "2024-01-05T00:00:00Z",
      "feat: bump deps", "renovate[bot]", "https://github.com/renovate[bot]",
      "feat", 3, 1, "2024-01-06"⟩]
    "o" "r" "2024-01-01T00:00:00Z" "2024-12-31T00:00:00Z" "overall" "renovate[bot]"
    (by decide)

/-! ## Identifier-maximum lemmas for the latest CTE -/

/-- The maximal identifier of a group is an identifier of the group. -/
theorem maxIdOf_mem (l : List Nat) (m : Nat) (h : maxIdOf l = some m) : m ∈ l := by
  induction l generalizing m with
  | nil => simp [maxIdOf] at h
  | cons n ns ih =>
    rw [maxIdOf] at h
    split at h
    · cases h
      exact List.mem_cons_self n ns
    · rename_i m0 hm0
      cases h
      rcases max_choice n m0 with hc | hc
      · rw [hc]
        exact List.mem_cons_self n ns
      · rw [hc]
        exact List.mem_cons_of_mem n (ih m0 hm0)

/-- Every identifier of the group is bounded by the group maximum. -/
theorem maxIdOf_ge (l : List Nat) (m : Nat) (h : maxIdOf l = some m) :
    ∀ x ∈ l, x ≤ m := by
  induction l generalizing m with
  | nil => simp
  | cons n ns ih =>
    intro x hx
    rw [maxIdOf] at h
    split at h
    · rename_i hm0
      cases h
      rcases List.mem_cons.mp hx with hxa | hxl
      · exact hxa ▸ Nat.le_refl _
      · induction ns with
        | nil => simp at hxl
        | cons b bs _ =>
          rw [maxIdOf] at hm0
          split at hm0 <;> exact Option.noConfusion hm0
    · rename_i m0 hm0
      cases h
      rcases List.mem_cons.mp hx with hxa | hxl
      · exact hxa ▸ Nat.le_max_left n m0
      · exact Nat.le_trans (ih m0 hm0 x hxl) (Nat.le_max_right n m0)

/-- A nonempty group has a maximum. -/
theorem maxIdOf_isSome (l : List Nat) (h : l ≠ []) : ∃ m, maxIdOf l = some m := by
  cases l with
  | nil => exact absurd rfl h
  | cons n ns =>
    rw [maxIdOf]
    cases hm : maxIdOf ns with
    | none => exact ⟨n, rfl⟩
    | some m0 => exact ⟨max n m0, rfl⟩

/-! ## The latest-wins join -/

/-- Under distinct row identifiers, the join of pr_rows with the latest CTE
keeps exactly the rows whose identifier is the maximum of their own
pr_number group. -/
theorem mem_latestRows (rows : List RawRow)
    (hids : (rows.map (fun r => r.id)).Nodup) (r : RawRow) :
    r ∈ latestRows rows ↔
      r ∈ rows ∧ groupMaxId rows r.payload.number = some r.id := by
  rw [latestRows, List.mem_filter]
  constructor
  · rintro ⟨hr, hany⟩
    rw [List.any_eq_true] at hany
    obtain ⟨s, hs, hgs⟩ := hany
    rw [decide_eq_true_eq] at hgs
    have hmem : r.id ∈ groupIds rows s.payload.number := maxIdOf_mem _ _ hgs
    rw [groupIds, List.mem_map] at hmem
    obtain ⟨r2, hr2, hr2id⟩ := hmem
    rw [List.mem_filter] at hr2
    have hr2eq : r2 = r := List.inj_on_of_nodup_map hids hr2.1 hr hr2id
    have hnum : r.payload.number = s.payload.number := by
      have := hr2.2
      rw [hr2eq] at this
      exact of_decide_eq_true this
    refine ⟨hr, ?_⟩
    rw [hnum]
    exact hgs
  · rintro ⟨hr, hg⟩
    refine ⟨hr, ?_⟩
    rw [List.any_eq_true]
    exact ⟨r, hr, decide_eq_true hg⟩

/-- A list whose members all equal one of its members, without duplicates,
is that singleton. -/
theorem eq_singleton_of_mem_of_all (l : List RawRow) (a : RawRow) (ha : a ∈ l)
    (hall : ∀ x ∈ l, x = a) (hnd : l.Nodup) : l = [a] := by
  cases l with
  | nil => simp at ha
  | cons b rest =>
    have hb : b = a := hall b (List.mem_cons_self b rest)
    subst hb
    cases rest with
    | nil => rfl
    | cons c rest2 =>
      have hc : c = b := hall c (List.mem_cons_of_mem b (List.mem_cons_self c rest2))
      subst hc
      rw [List.nodup_cons] at hnd
      exact absurd (List.mem_cons_self c rest2) hnd.1

/-- The fields of a derived fact are exactly those of its source row. -/
theorem factOfRow_fields (owner repo : String) (r : RawRow) (f : FactRow)
    (h : factOfRow owner repo r = some f) :
    f.source_row_id = r.id ∧ r.payload.title = some f.title ∧
    r.payload.userLogin = some f.author ∧ r.payload.htmlUrl = some f.pr_url ∧
    r.payload.mergedAt = some f.merged_at ∧
    f.kind = (deriveKind f.title).1 ∧ f.points = (deriveKind f.title).2 ∧
    f.owner = owner ∧ f.repo = repo := by
  rw [factOfRow] at h
  split at h
  · rename_i u m t a hu hm ht ha
    split at h
    · exact absurd h (by simp)
    · have hf := Option.some.inj h
      subst hf
      exact ⟨rfl, ht, ha, hu, hm, rfl, rfl, rfl, rfl⟩
  · exact absurd h (by simp)

/-! ## C2: latest-wins per PR number -/

/-- C2: for a PR number with two or more stored successful in-window detail
rows, the latest-wins grouping keeps exactly one candidate row — the one
with the greatest storage identifier — and any fact the derivation produces
from that PR number's rows is built from that row alone, taking title,
author, classification kind and score from it. -/
theorem latest_wins_per_pr_number (store : List RawRow)
    (owner repo sinceIso defaultBranch : String) (n : Int)
    (hids : (store.map (fun r => r.id)).Nodup)
    (h2 : 2 ≤ ((prRows store owner repo sinceIso).filter
      (fun r => decide (r.payload.number = some n))).length) :
    ∃ rmax : RawRow,
      ((latestRows (prRows store owner repo sinceIso)).filter
        (fun r => decide (r.payload.number = some n))) = [rmax] ∧
      rmax ∈ prRows store owner repo sinceIso ∧
      rmax.payload.number = some n ∧
      (∀ s ∈ prRows store owner repo sinceIso, s.payload.number = some n →
        s.id ≤ rmax.id) ∧
      (∀ f ∈ deriveFactsList store owner repo sinceIso defaultBranch,
        (∃ s ∈ prRows store owner repo sinceIso,
          s.payload.number = some n ∧ f.source_row_id = s.id) →
        factOfRow owner repo rmax = some f ∧
        rmax.payload.title = some f.title ∧
        rmax.payload.userLogin = some f.author ∧
        f.kind = (deriveKind f.title).1 ∧ f.points = (deriveKind f.title).2) := by
  have hrows_sub : (prRows store owner repo sinceIso).Sublist store :=
    List.filter_sublist store
  have hrow_ids : ((prRows store owner repo sinceIso).map (fun r => r.id)).Nodup :=
    List.Nodup.sublist (List.Sublist.map _ hrows_sub) hids
  have hstore_nd : store.Nodup := List.Nodup.of_map _ hids
  have hrows_nd : (prRows store owner repo sinceIso).Nodup :=
    List.Nodup.sublist hrows_sub hstore_nd
  have hgrp_ne : ((prRows store owner repo sinceIso).filter
      (fun r => decide (r.payload.number = some n))) ≠ [] := by
    intro hc
    rw [hc] at h2
    simp at h2
  have hgids_ne : groupIds (prRows store owner repo sinceIso) (some n) ≠ [] := by
    rw [groupIds]
    intro hc
    rw [List.map_eq_nil_iff] at hc
    exact hgrp_ne hc
  obtain ⟨m, hm⟩ := maxIdOf_isSome _ hgids_ne
  have hmmem : m ∈ groupIds (prRows store owner repo sinceIso) (some n) :=
    maxIdOf_mem _ _ hm
  rw [groupIds, List.mem_map] at hmmem
  obtain ⟨rmax, hrmax, hrmaxid⟩ := hmmem
  rw [List.mem_filter] at hrmax
  have hrmaxnum : rmax.payload.number = some n := of_decide_eq_true hrmax.2
  have hmaxge : ∀ s ∈ prRows store owner repo sinceIso, s.payload.number = some n →
      s.id ≤ rmax.id := by
    intro s hs hsn
    rw [hrmaxid]
    apply maxIdOf_ge _ _ hm
    rw [groupIds, List.mem_map]
    exact ⟨s, List.mem_filter.mpr ⟨hs, decide_eq_true hsn⟩, rfl⟩
  have hrmax_latest : rmax ∈ latestRows (prRows store owner repo sinceIso) := by
    rw [mem_latestRows _ hrow_ids]
    refine ⟨hrmax.1, ?_⟩
    rw [hrmaxnum, groupMaxId, hm, hrmaxid]
  have hsingle : ((latestRows (prRows store owner repo sinceIso)).filter
      (fun r => decide (r.payload.number = some n))) = [rmax] := by
    apply eq_singleton_of_mem_of_all
    · exact List.mem_filter.mpr ⟨hrmax_latest, decide_eq_true hrmaxnum⟩
    · intro x hx
      rw [List.mem_filter] at hx
      have hxnum : x.payload.number = some n := of_decide_eq_true hx.2
      rw [mem_latestRows _ hrow_ids] at hx
      have hxg := hx.1.2
      rw [hxnum, groupMaxId, hm] at hxg
      have hxid : x.id = rmax.id := by
        have := Option.some.inj hxg
        omega
      exact List.inj_on_of_nodup_map hrow_ids hx.1.1 hrmax.1 hxid
    · exact List.Nodup.sublist (List.filter_sublist _)
        (List.Nodup.sublist (List.filter_sublist _) hrows_nd)
  refine ⟨rmax, hsingle, hrmax.1, hrmaxnum, hmaxge, ?_⟩
  intro f hf hsrc
  obtain ⟨s, hs, hsn, hsid⟩ := hsrc
  rw [deriveFactsList, List.mem_filterMap] at hf
  obtain ⟨rp, hrp, hrpf⟩ := hf
  have hrp_picked := hrp
  rw [pickedRows, List.mem_filter] at hrp_picked
  have hrp_latest := hrp_picked.1
  have hrp_rows : rp ∈ prRows store owner repo sinceIso :=
    List.mem_of_mem_filter hrp_latest
  have hfields := factOfRow_fields owner repo rp f hrpf
  have hrpid : rp.id = s.id := by
    rw [← hfields.1, hsid]
  have hrps : rp = s := List.inj_on_of_nodup_map hrow_ids hrp_rows hs hrpid
  have hrpnum : rp.payload.number = some n := by
    rw [hrps]
    exact hsn
  have hrp_in_filter : rp ∈ ((latestRows (prRows store owner repo sinceIso)).filter
      (fun r => decide (r.payload.number = some n))) :=
    List.mem_filter.mpr ⟨hrp_latest, decide_eq_true hrpnum⟩
  rw [hsingle] at hrp_in_filter
  have hrpmax : rp = rmax := by
    simpa using hrp_in_filter
  rw [← hrpmax]
  exact ⟨hrpf, hfields.2.1, hfields.2.2.1, hfields.2.2.2.2.2.1, hfields.2.2.2.2.2.2.1⟩

/-- C2 witness: a store with two successful in-window detail rows for PR 7
whose titles differ; the grouping keeps only the higher-identifier row and
the derived fact takes its fields from it. -/
theorem latest_wins_per_pr_number_witness :
    ∃ rmax : RawRow,
      ((latestRows (prRows
          [⟨1, "github", "/repos/o/r/pulls/7", 200,
            ⟨some 7, some "2024-06-01T00:00:00Z", some "main",
             some "https://github.com/o/r/pull/7", some "old title", some "alice", none⟩,
            "2024-06-02"⟩,
           ⟨2, "github", "/repos/o/r/pulls/7", 200,
            ⟨some 7, some "2024-06-01T00:00:00Z", some "main",
             some "https://github.com/o/r/pull/7", some "feat: new title", some "alice", none⟩,
            "2024-06-03"⟩]
          "o" "r" "2024-01-01T00:00:00Z")).filter
        (fun r => decide (r.payload.number = some (7 : Int)))) = [rmax] ∧
      rmax ∈ prRows
          [⟨1, "github", "/repos/o/r/pulls/7", 200,
            ⟨some 7, some "2024-06-01T00:00:00Z", some "main",
             some "https://github.com/o/r/pull/7", some "old title", some "alice", none⟩,
            "2024-06-02"⟩,
           ⟨2, "github", "/repos/o/r/pulls/7", 200,
            ⟨some 7, some "2024-06-01T00:00:00Z", some "main",
             some "https://github.com/o/r/pull/7", some "feat: new title", some "alice", none⟩,
            "2024-06-03"⟩]
          "o" "r" "2024-01-01T00:00:00Z" ∧
      rmax.payload.number = some 7 ∧
      (∀ s ∈ prRows
          [⟨1, "github", "/repos/o/r/pulls/7", 200,
            ⟨some 7, some "2024-06-01T00:00:00Z", some "main",
             some "https://github.com/o/r/pull/7", some "old title", some "alice", none⟩,
            "2024-06-02"⟩,
           ⟨2, "github", "/repos/o/r/pulls/7", 200,
            ⟨some 7, some "2024-06-01T00:00:00Z", some "main",
             some "https://github.com/o/r/pull/7", some "feat: new title", some "alice", none⟩,
            "2024-06-03"⟩]
          "o" "r" "2024-01-01T00:00:00Z", s.payload.number = some 7 → s.id ≤ rmax.id) ∧
      (∀ f ∈ deriveFactsList
          [⟨1, "github", "/repos/o/r/pulls/7", 200,
            ⟨some 7, some "2024-06-01T00:00:00Z", some "main",
             some "https://github.com/o/r/pull/7", some "old title", some "alice", none⟩,
            "2024-06-02"⟩,
           ⟨2, "github", "/repos/o/r/pulls/7", 200,
            ⟨some 7, some "2024-06-01T00:00:00Z", some "main",
             some "https://github.com/o/r/pull/7", some "feat: new title", some "alice", none⟩,
            "2024-06-03"⟩]
          "o" "r" "2024-01-01T00:00:00Z" "main",
        (∃ s ∈ prRows
            [⟨1, "github", "/repos/o/r/pulls/7", 200,
              ⟨some 7, some "2024-06-01T00:00:00Z", some "main",
               some "https://github.com/o/r/pull/7", some "old title", some "alice", none⟩,
              "2024-06-02"⟩,
             ⟨2, "github", "/repos/o/r/pulls/7", 200,
              ⟨some 7, some "2024-06-01T00:00:00Z", some "main",
               some "https://github.com/o/r/pull/7", some "feat: new title", some "alice", none⟩,
              "2024-06-03"⟩]
            "o" "r" "2024-01-01T00:00:00Z",
          s.payload.number = some 7 ∧ f.source_row_id = s.id) →
        factOfRow "o" "r" rmax = some f ∧
        rmax.payload.title = some f.title ∧
        rmax.payload.userLogin = some f.author ∧
        f.kind = (deriveKind f.title).1 ∧ f.points = (deriveKind f.title).2) :=
  latest_wins_per_pr_number
    [⟨1, "github", "/repos/o/r/pulls/7", 200,
      ⟨some 7, some "2024-06-01T00:00:00Z", some "main",
       some "https://github.com/o/r/pull/7", some "old title", some "alice", none⟩,
      "2024-06-02"⟩,
     ⟨2, "github", "/repos/o/r/pulls/7", 200,
      ⟨some 7, some "2024-06-01T00:00:00Z", some "main",
       some "https://github.com/o/r/pull/7", some "feat: new title", some "alice", none⟩,
      "2024-06-03"⟩]
    "o" "r" "2024-01-01T00:00:00Z" "main" 7 (by decide) (by decide)

/-! ## Upsert-table lemmas for idempotence -/

/-- Keys after one upsert: unchanged on conflict, the new key appended
otherwise. -/
theorem factKeys_upsertFact (t : List FactRow) (f : FactRow) :
    factKeys (upsertFact t f) =
      if factKey f ∈ factKeys t then factKeys t else factKeys t ++ [factKey f] := by
  induction t with
  | nil => simp [upsertFact, factKeys]
  | cons r rs ih =>
    by_cases h : factKey r = factKey f
    · rw [upsertFact, if_pos h]
      have hmem : factKey f ∈ factKeys (r :: rs) := by
        rw [factKeys, List.map_cons]
        exact h ▸ List.mem_cons_self _ _
      rw [if_pos hmem]
      simp [factKeys, h]
    · rw [upsertFact, if_neg h]
      have hiff : factKey f ∈ factKeys (r :: rs) ↔ factKey f ∈ factKeys rs := by
        simp only [factKeys, List.map_cons, List.mem_cons]
        constructor
        · rintro (hc | hc)
          · exact absurd hc.symm h
          · exact hc
        · exact Or.inr
      by_cases hm : factKey f ∈ factKeys rs
      · rw [if_pos (hiff.mpr hm)]
        simp only [factKeys, List.map_cons]
        have : factKeys (upsertFact rs f) = factKeys rs := by
          rw [ih, if_pos hm]
        simp only [factKeys] at this
        rw [this]
      · rw [if_neg (fun hc => hm (hiff.mp hc))]
        simp only [factKeys, List.map_cons]
        have : factKeys (upsertFact rs f) = factKeys rs ++ [factKey f] := by
          rw [ih, if_neg hm]
        simp only [factKeys] at this
        rw [this]
        simp

/-- Head step of the key lookup when the head matches. -/
theorem lookupFact_cons_pos (a : FactRow) (l : List FactRow)
    (k : String × String × String) (h : factKey a = k) :
    lookupFact k (a :: l) = some a := by
  rw [lookupFact, List.find?]
  rw [decide_eq_true h]

/-- Head step of the key lookup when the head differs. -/
theorem lookupFact_cons_neg (a : FactRow) (l : List FactRow)
    (k : String × String × String) (h : ¬factKey a = k) :
    lookupFact k (a :: l) = lookupFact k l := by
  rw [lookupFact, List.find?]
  rw [decide_eq_false h]
  rfl

/-- Lookup after one upsert: the upserted fact under its key, the previous
table elsewhere. -/
theorem lookupFact_upsertFact (t : List FactRow) (f : FactRow)
    (k : String × String × String) :
    lookupFact k (upsertFact t f) = if k = factKey f then some f else lookupFact k t := by
  induction t with
  | nil =>
    by_cases hk : k = factKey f
    · rw [if_pos hk, upsertFact, lookupFact_cons_pos _ _ _ hk.symm]
    · rw [if_neg hk, upsertFact, lookupFact_cons_neg _ _ _ (fun hc => hk hc.symm)]
  | cons r rs ih =>
    by_cases h : factKey r = factKey f
    · rw [upsertFact, if_pos h]
      by_cases hk : k = factKey f
      · rw [if_pos hk, lookupFact_cons_pos _ _ _ hk.symm]
      · rw [if_neg hk, lookupFact_cons_neg _ _ _ (fun hc => hk hc.symm),
          lookupFact_cons_neg _ _ _ (fun hc => hk (hc.symm.trans h))]
    · rw [upsertFact, if_neg h]
      by_cases hr : factKey r = k
      · have hk : ¬(k = factKey f) := fun hc => h (hr.trans hc)
        rw [if_neg hk, lookupFact_cons_pos _ _ _ hr, lookupFact_cons_pos _ _ _ hr]
      · rw [lookupFact_cons_neg _ _ _ hr, ih, lookupFact_cons_neg _ _ _ hr]

/-- A key absent from the table looks up to nothing. -/
theorem lookupFact_eq_none (k : String × String × String) (t : List FactRow)
    (h : k ∉ factKeys t) : lookupFact k t = none := by
  rw [lookupFact, List.find?_eq_none]
  intro x hx
  simp only [decide_eq_true_eq]
  intro hc
  exact h (hc ▸ List.mem_map_of_mem factKey hx)

/-- Tables with the same keys, no duplicate keys, and the same lookups are
equal row for row. -/
theorem facts_ext (t1 t2 : List FactRow) (hk : factKeys t1 = factKeys t2)
    (hnd : (factKeys t1).Nodup) (hl : ∀ k, lookupFact k t1 = lookupFact k t2) :
    t1 = t2 := by
  induction t1 generalizing t2 with
  | nil =>
    cases t2 with
    | nil => rfl
    | cons b t2 => simp [factKeys] at hk
  | cons a t1 ih =>
    cases t2 with
    | nil => simp [factKeys] at hk
    | cons b t2 =>
      simp only [factKeys, List.map_cons] at hk
      injection hk with hk1 hk2
      have ha : lookupFact (factKey a) (a :: t1) = some a :=
        lookupFact_cons_pos _ _ _ rfl
      have hb : lookupFact (factKey a) (b :: t2) = some b :=
        lookupFact_cons_pos _ _ _ hk1.symm
      have hab : a = b := by
        have h0 := hl (factKey a)
        rw [ha, hb] at h0
        exact Option.some.inj h0
      subst hab
      simp only [factKeys, List.map_cons, List.nodup_cons] at hnd
      congr 1
      apply ih
      · exact hk2
      · exact hnd.2
      · intro k
        by_cases hka : k = factKey a
        · subst hka
          rw [lookupFact_eq_none _ _ (by simpa [factKeys] using hnd.1),
            lookupFact_eq_none _ _ (by simp only [factKeys]; rw [← hk2]; simpa using hnd.1)]
        · have h1 := hl k
          rw [lookupFact_cons_neg _ _ _ (fun hc => hka hc.symm),
            lookupFact_cons_neg _ _ _ (fun hc => hka hc.symm)] at h1
          exact h1

/-- One upsert keeps the keys duplicate-free. -/
theorem factKeys_upsert_nodup (t : List FactRow) (f : FactRow)
    (h : (factKeys t).Nodup) : (factKeys (upsertFact t f)).Nodup := by
  rw [factKeys_upsertFact]
  by_cases hm : factKey f ∈ factKeys t
  · rwa [if_pos hm]
  · rw [if_neg hm]
    rw [List.nodup_append]
    refine ⟨h, List.nodup_singleton _, ?_⟩
    intro a ha hb
    rw [List.mem_singleton] at hb
    exact hm (hb ▸ ha)

/-- The whole batch keeps the keys duplicate-free. -/
theorem factKeys_applyFacts_nodup (fs : List FactRow) (t : List FactRow)
    (h : (factKeys t).Nodup) : (factKeys (applyFacts t fs)).Nodup := by
  induction fs generalizing t with
  | nil => exact h
  | cons g gs ih =>
    rw [applyFacts, List.foldl_cons]
    exact ih (upsertFact t g) (factKeys_upsert_nodup t g h)

/-- Keys never disappear across an upsert. -/
theorem factKeys_mem_upsert (t : List FactRow) (g : FactRow)
    (k : String × String × String) (h : k ∈ factKeys t) :
    k ∈ factKeys (upsertFact t g) := by
  rw [factKeys_upsertFact]
  by_cases hm : factKey g ∈ factKeys t
  · rwa [if_pos hm]
  · rw [if_neg hm]
    exact List.mem_append_left _ h

/-- The upserted fact's key is present after the upsert. -/
theorem factKey_self_mem_upsert (t : List FactRow) (g : FactRow) :
    factKey g ∈ factKeys (upsertFact t g) := by
  rw [factKeys_upsertFact]
  by_cases hm : factKey g ∈ factKeys t
  · rwa [if_pos hm]
  · rw [if_neg hm]
    exact List.mem_append_right _ (List.mem_singleton.mpr rfl)

/-- Keys never disappear across a batch of upserts. -/
theorem factKeys_mem_applyFacts (fs : List FactRow) (t : List FactRow)
    (k : String × String × String) (h : k ∈ factKeys t) :
    k ∈ factKeys (applyFacts t fs) := by
  induction fs generalizing t with
  | nil => exact h
  | cons g gs ih =>
    rw [applyFacts, List.foldl_cons]
    exact ih (upsertFact t g) (factKeys_mem_upsert t g k h)

/-- Every batch member's key is present after the batch. -/
theorem factKey_batch_mem_applyFacts (fs : List FactRow) (t : List FactRow)
    (f : FactRow) (hf : f ∈ fs) : factKey f ∈ factKeys (applyFacts t fs) := by
  induction fs generalizing t with
  | nil => simp at hf
  | cons g gs ih =>
    rw [applyFacts, List.foldl_cons]
    rcases List.mem_cons.mp hf with rfl | hm
    · exact factKeys_mem_applyFacts gs (upsertFact t f) (factKey f)
        (factKey_self_mem_upsert t f)
    · exact ih (upsertFact t g) hm

/-- A batch whose keys all conflict leaves the key list unchanged. -/
theorem factKeys_applyFacts_of_subset (fs : List FactRow) (t : List FactRow)
    (h : ∀ f ∈ fs, factKey f ∈ factKeys t) :
    factKeys (applyFacts t fs) = factKeys t := by
  induction fs generalizing t with
  | nil => rfl
  | cons g gs ih =>
    rw [applyFacts, List.foldl_cons]
    have hg : factKeys (upsertFact t g) = factKeys t := by
      rw [factKeys_upsertFact, if_pos (h g (List.mem_cons_self g gs))]
    have hrest : ∀ f ∈ gs, factKey f ∈ factKeys (upsertFact t g) := by
      intro f hf
      rw [hg]
      exact h f (List.mem_cons_of_mem g hf)
    rw [show List.foldl upsertFact (upsertFact t g) gs = applyFacts (upsertFact t g) gs
      from rfl]
    rw [ih (upsertFact t g) hrest, hg]

/-- Lookup after a batch: the last batch value under the key, or the prior
table value when the batch never wrote the key. -/
theorem lookupFact_applyFacts (fs : List FactRow) (t : List FactRow)
    (k : String × String × String) :
    lookupFact k (applyFacts t fs) =
      match lastFactFor k fs with
      | some g => some g
      | none => lookupFact k t := by
  induction fs generalizing t with
  | nil => rfl
  | cons g gs ih =>
    rw [applyFacts, List.foldl_cons]
    rw [show List.foldl upsertFact (upsertFact t g) gs = applyFacts (upsertFact t g) gs
      from rfl]
    rw [ih (upsertFact t g)]
    rw [lastFactFor]
    cases hl : lastFactFor k gs with
    | some h0 => rfl
    | none =>
      simp only
      rw [lookupFact_upsertFact]
      by_cases hk : k = factKey g
      · rw [if_pos hk, if_pos hk.symm]
      · rw [if_neg hk, if_neg (fun hc => hk hc.symm)]

/-- Replaying the same batch on its own output changes nothing. -/
theorem applyFacts_idem (t : List FactRow) (fs : List FactRow)
    (hnd : (factKeys t).Nodup) :
    applyFacts (applyFacts t fs) fs = applyFacts t fs := by
  have hsub : ∀ f ∈ fs, factKey f ∈ factKeys (applyFacts t fs) :=
    fun f hf => factKey_batch_mem_applyFacts fs t f hf
  apply facts_ext
  · exact factKeys_applyFacts_of_subset fs (applyFacts t fs) hsub
  · rw [factKeys_applyFacts_of_subset fs (applyFacts t fs) hsub]
    exact factKeys_applyFacts_nodup fs t hnd
  · intro k
    rw [lookupFact_applyFacts fs (applyFacts t fs) k]
    cases hl : lastFactFor k fs with
    | some g =>
      rw [lookupFact_applyFacts fs t k, hl]
    | none => rfl

/-! ## C4: idempotent fact derivation -/

/-- C4: for a fixed raw store, owner, repo and window, running fact
derivation on the facts table it just produced returns that same table —
same rows, same order, same field values — because every derived fact is
upserted under the key (owner, repo, PR URL) with a full overwrite. -/
theorem refresh_facts_idempotent (store : List RawRow) (owner repo sinceIso : String)
    (facts facts1 : List FactRow) (hnd : (factKeys facts).Nodup)
    (h1 : refreshPrFactsForRepo store owner repo sinceIso facts = some facts1) :
    refreshPrFactsForRepo store owner repo sinceIso facts1 = some facts1 := by
  cases hdb : lookupDefaultBranch store owner repo with
  | none =>
    rw [refreshPrFactsForRepo, hdb] at h1
    exact absurd h1 (by simp)
  | some db =>
    rw [refreshPrFactsForRepo, hdb] at h1
    have h2 : facts1 = applyFacts facts (deriveFactsList store owner repo sinceIso db) :=
      (Option.some.inj h1).symm
    rw [refreshPrFactsForRepo, hdb]
    rw [h2]
    exact congrArg some
      (applyFacts_idem facts (deriveFactsList store owner repo sinceIso db) hnd)

/-- C4 witness: a store with the repository metadata row and one merged
in-window detail row; the first derivation from an empty facts table yields
one fact row, and rerunning derivation on that table returns it unchanged. -/
theorem refresh_facts_idempotent_witness :
    refreshPrFactsForRepo
      [⟨1, "github", "/repos/o/r", 200,
        ⟨none, none, none, none, none, none, some "main"⟩, "2024-01-01"⟩,
       ⟨2, "github", "/repos/o/r/pulls/7", 200,
        ⟨some 7, some "2024-06-01T00:00:00Z", some "main",
         some "https://github.com/o/r/pull/7", some "feat: x", some "alice", none⟩,
        "2024-06-02"⟩]
      "o" "r" "2024-01-01T00:00:00Z"
      [⟨"o", "r", "https://github.com/o/r/pull/7", "2024-06-01T00:00:00Z", "feat: x",
        "alice", "https://github.com/alice", "feat", 3, 2, "2024-06-02"⟩] =
    some
      [⟨"o", "r", "https://github.com/o/r/pull/7", "2024-06-01T00:00:00Z", "feat: x",
        "alice", "https://github.com/alice", "feat", 3, 2, "2024-06-02"⟩] :=
  refresh_facts_idempotent
    [⟨1, "github", "/repos/o/r", 200,
      ⟨none, none, none, none, none, none, some "main"⟩, "2024-01-01"⟩,
     ⟨2, "github", "/repos/o/r/pulls/7", 200,
      ⟨some 7, some "2024-06-01T00:00:00Z", some "main",
       some "https://github.com/o/r/pull/7", some "feat: x", some "alice", none⟩,
      "2024-06-02"⟩]
    "o" "r" "2024-01-01T00:00:00Z" []
    [⟨"o", "r", "https://github.com/o/r/pull/7", "2024-06-01T00:00:00Z", "feat: x",
      "alice", "https://github.com/alice", "feat", 3, 2, "2024-06-02"⟩]
    (by decide) (by decide)

end Weave
